import Mathlib

/-!
# Verification of the cricket scoreboard-OCR event detector

Shallow embedding of the core of `backend/scripts/ocr_engine.py`:
the OCR-text score parser (`clean_ocr_text`, `parse_score`), the
`EventDetector` state machine (`detect`), the ROI clamping of
`OCRScoreReader._extract_region`, and the clip assembly arithmetic of
`extract_clips`.  Timestamps are modelled as rationals, Python ints as
`Int`, the bounded `deque(maxlen=5)` histories as lists truncated on push.
-/

/-- `ScoreState` from the source: runs and wickets, `wickets = -1` meaning
runs-only mode.  Equality is by both fields, as in `ScoreState.__eq__`. -/
structure ScoreState where
  runs : Int
  wickets : Int
deriving DecidableEq, Repr

/-- The `OCR_CORRECTIONS` dict of the source, in Python insertion order. -/
def OCR_CORRECTIONS : List (Char × Char) :=
  [('O', '0'), ('o', '0'), ('S', '5'), ('s', '5'), ('I', '1'), ('l', '1'),
   ('|', '1'), ('B', '8'), ('b', '6'), ('G', '6'), ('g', '6')]

/-- One Python `str.replace(old, new)` for single-character `old`, `new`:
a character-wise substitution. -/
def replaceChar (a b : Char) (l : List Char) : List Char :=
  l.map fun c => if c = a then b else c

/-- The loop body of `clean_ocr_text`: apply every correction in order. -/
def cleanChars (l : List Char) : List Char :=
  OCR_CORRECTIONS.foldl (fun acc p => replaceChar p.1 p.2 acc) l

/-- `clean_ocr_text` from the source: fix common OCR misreadings. -/
def clean_ocr_text (s : String) : String :=
  ⟨cleanChars s.data⟩

/-- The composite per-character effect of applying all corrections in order. -/
def corr (c : Char) : Char :=
  OCR_CORRECTIONS.foldl (fun x p => if x = p.1 then p.2 else x) c

/-- Whitespace as recognized by Python `str.strip` / the regex class `\s`
for the ASCII range: space, tab, newline, carriage return, vertical tab,
form feed. -/
def isSpaceChar (c : Char) : Bool :=
  c == ' ' || c == '\t' || c == '\n' || c == '\r' || c == '\x0b' || c == '\x0c'

/-- Python `str.strip()`: drop leading and trailing whitespace. -/
def pyStrip (l : List Char) : List Char :=
  ((l.dropWhile isSpaceChar).reverse.dropWhile isSpaceChar).reverse

/-- Numeric value of a digit character, as Python `int(ch)`. -/
def digitVal (c : Char) : Nat := c.toNat - 48

/-- Python `int(digit_string)` for a non-empty digit string. -/
def digitsToNat (l : List Char) : Nat :=
  l.foldl (fun n c => n * 10 + digitVal c) 0

/-- The regex match `^(\d{1,3})/(\d{1,2})$` of strategy 1 of `parse_score`. -/
def matchSlash (l : List Char) : Option (Nat × Nat) :=
  let pre := l.takeWhile Char.isDigit
  let rest := l.drop pre.length
  match rest with
  | '/' :: post =>
    if 1 ≤ pre.length && pre.length ≤ 3 && 1 ≤ post.length && post.length ≤ 2
        && post.all Char.isDigit then
      some (digitsToNat pre, digitsToNat post)
    else none
  | _ => none

/-- The regex match `^(\d{1,3})\s+(\d{1,2})$` of strategy 2 of `parse_score`. -/
def matchSpaceSep (l : List Char) : Option (Nat × Nat) :=
  let pre := l.takeWhile Char.isDigit
  let rest := l.drop pre.length
  let sp := rest.takeWhile isSpaceChar
  let post := rest.drop sp.length
  if 1 ≤ pre.length && pre.length ≤ 3 && 1 ≤ sp.length && 1 ≤ post.length
      && post.length ≤ 2 && post.all Char.isDigit then
    some (digitsToNat pre, digitsToNat post)
  else none

/-- `re.sub(r'[f|\\]', '/', text)`: normalize separator substitutes to slash. -/
def slashNormalize (l : List Char) : List Char :=
  l.map fun c => if c == 'f' || c == '|' || c == '\\' then '/' else c

/-- Strategy 1 of `parse_score`: strict slash format on `[0-9/]`-stripped text. -/
def strat1 (t : List Char) : Option ScoreState :=
  let cleaned := pyStrip (t.filter fun c => c.isDigit || c == '/')
  match matchSlash cleaned with
  | some (r, w) => if r ≤ 999 && w ≤ 10 then some ⟨r, w⟩ else none
  | none => none

/-- Strategy 2 of `parse_score`: space-separated on the stripped original. -/
def strat2 (original : List Char) : Option ScoreState :=
  match matchSpaceSep original with
  | some (r, w) => if r ≤ 999 && w ≤ 10 then some ⟨r, w⟩ else none
  | none => none

/-- Strategy 3 of `parse_score`: the last-digit heuristic, gated on
`prev_wickets`. -/
def strat3 (t : List Char) (prev : Option Int) : Option ScoreState :=
  let digitsOnly := t.filter Char.isDigit
  match prev with
  | none => none
  | some pw =>
    if 2 ≤ digitsOnly.length then
      match digitsOnly.getLast? with
      | none => none
      | some c =>
        let lastDigit : Int := (digitVal c : Int)
        if (0 ≤ lastDigit ∧ lastDigit ≤ 10) ∧ (lastDigit = pw ∨ lastDigit = pw + 1) then
          let runsStr := digitsOnly.dropLast
          if runsStr ≠ [] ∧ runsStr.length ≤ 3 then
            if digitsToNat runsStr ≤ 999 then
              some ⟨(digitsToNat runsStr : Int), lastDigit⟩
            else none
          else none
        else none
    else none

/-- Strategy 4 of `parse_score`: runs-only fallback, `wickets = -1`. -/
def strat4 (t : List Char) : Option ScoreState :=
  let digitsOnly := t.filter Char.isDigit
  if 1 ≤ digitsOnly.length ∧ digitsOnly.length ≤ 3 then
    if digitsToNat digitsOnly ≤ 999 then
      some ⟨(digitsToNat digitsOnly : Int), -1⟩
    else none
  else none

/-- `parse_score` from the source: the empty/whitespace guard, glyph
corrections, slash normalization, then the four strategies in order. -/
def parse_score (s : String) (prev : Option Int) : Option ScoreState :=
  let l0 := s.data
  if l0.isEmpty || (pyStrip l0).isEmpty then none
  else
    let original := cleanChars l0
    let t := slashNormalize original
    match strat1 t with
    | some r => some r
    | none =>
      match strat2 (pyStrip original) with
      | some r => some r
      | none =>
        match strat3 t prev with
        | some r => some r
        | none => strat4 t

example : parse_score ("1453") (some 3) = some ⟨145, 3⟩ := by decide
example : parse_score ("1453") none = none := by decide
example : parse_score ("145/3") none = some ⟨145, 3⟩ := by decide
example : parse_score ("145 3") none = some ⟨145, 3⟩ := by decide
example : parse_score ("O/S") none = some ⟨0, 5⟩ := by decide
example : parse_score ("145") none = some ⟨145, -1⟩ := by decide
example : parse_score ("  ") (some 3) = none := by decide

/-! ## The event detector state machine -/

/-- The three event kinds emitted by the detector. -/
inductive EventKind where
  | FOUR
  | SIX
  | WICKET
deriving DecidableEq, Repr

/-- An emitted event, as built by `EventDetector._create_event` (the source
stores the scores inside the dict; we keep them structurally). -/
structure Event where
  kind : EventKind
  timestamp : ℚ
  scoreBefore : ScoreState
  scoreAfter : ScoreState
deriving DecidableEq, Repr

/-- `EventDetector.history_size` default. -/
def HISTORY_SIZE : Nat := 5

/-- `EventDetector.cooldown_seconds` default. -/
def COOLDOWN_SECONDS : ℚ := 10

/-- `EventDetector.MAX_RUNS_PER_BALL`. -/
def MAX_RUNS_PER_BALL : Int := 8

/-- `EventDetector.RESET_PERSISTENCE_SECONDS`. -/
def RESET_PERSISTENCE_SECONDS : ℚ := 60

/-- The mutable state of `EventDetector`, as set up by `reset()`. -/
structure DetectorState where
  lastEventTime : ℚ
  lastStableScore : Option ScoreState
  lastOver : Option (Int × Int)
  runsHistory : List Int
  wicketsHistory : List Int
  resetCandidate : Option ScoreState
  resetCandidateTime : ℚ
deriving DecidableEq, Repr

/-- `EventDetector.reset()`: the freshly initialized state. -/
def initState : DetectorState :=
  ⟨-999, none, none, [], [], none, 0⟩

/-- `deque(maxlen=HISTORY_SIZE).append`: push right, drop left on overflow. -/
def pushBounded (l : List Int) (x : Int) : List Int :=
  let m := l ++ [x]
  m.drop (m.length - HISTORY_SIZE)

/-- The two history appends done together everywhere in `detect`. -/
def pushScore (s : DetectorState) (sc : ScoreState) : DetectorState :=
  { s with runsHistory := pushBounded s.runsHistory sc.runs,
           wicketsHistory := pushBounded s.wicketsHistory sc.wickets }

/-- Insert into a sorted list (ascending). -/
def insertSorted (x : Int) : List Int → List Int
  | [] => [x]
  | y :: ys => if x ≤ y then x :: y :: ys else y :: insertSorted x ys

/-- Python `sorted` on a list of ints: ascending order. -/
def sortInts (l : List Int) : List Int :=
  l.foldr insertSorted []

/-- `EventDetector._get_median_score`: `None` until the runs history is full,
then the middle elements of the sorted histories (wickets ignoring `-1`,
defaulting to 0). -/
def getMedianScore (s : DetectorState) : Option ScoreState :=
  if s.runsHistory.length < HISTORY_SIZE then none
  else
    let medianRuns := (sortInts s.runsHistory).getD (HISTORY_SIZE / 2) 0
    let valid := s.wicketsHistory.filter (fun w => 0 ≤ w)
    let medianWickets :=
      if valid = [] then 0 else (sortInts valid).getD (valid.length / 2) 0
    some ⟨medianRuns, medianWickets⟩

/-- `EventDetector._is_plausible`: runs in `[0, 400]`, wickets `≤ 10` when
non-negative. -/
def isPlausible (sc : ScoreState) : Bool :=
  if sc.runs < 0 ∨ sc.runs > 400 then false
  else if 0 ≤ sc.wickets ∧ sc.wickets > 10 then false
  else true

/-- The `progressed` test of the new-ball gate: `(over, ball)` strictly
increases lexicographically. -/
def oversProgressed (lastOver newOver : Int × Int) : Bool :=
  if newOver.1 > lastOver.1 ∨ (newOver.1 = lastOver.1 ∧ newOver.2 > lastOver.2) then
    true
  else false

/-- The same-ball gate fires when both the observation and the state carry
overs and the observation has not progressed. -/
def sameBallBlocked (s : DetectorState) (overs : Option (Int × Int)) : Bool :=
  match overs, s.lastOver with
  | some o, some lo => !(oversProgressed lo o)
  | _, _ => false

/-- `self.last_over = overs` when overs are present. -/
def updateOver (s : DetectorState) (overs : Option (Int × Int)) : DetectorState :=
  match overs with
  | some o => { s with lastOver := some o }
  | none => s

/-- `EventDetector._detect_wicket`: priority 1, `None` in runs-only mode,
otherwise a WICKET on exactly `+1` wicket regardless of runs. -/
def detectWicket (old new : ScoreState) (ts : ℚ) : Option Event :=
  if old.wickets < 0 ∨ new.wickets < 0 then none
  else if new.wickets - old.wickets = 1 then
    some ⟨EventKind.WICKET, ts, old, new⟩
  else none

/-- `EventDetector._detect_boundary`: priority 2, exact FOUR on the runs
difference `+4`, fuzzy SIX on `+5/+6/+7`. -/
def detectBoundary (old new : ScoreState) (ts : ℚ) : Option Event :=
  if new.runs - old.runs = 4 then some ⟨EventKind.FOUR, ts, old, new⟩
  else if new.runs - old.runs = 5 ∨ new.runs - old.runs = 6 ∨ new.runs - old.runs = 7 then
    some ⟨EventKind.SIX, ts, old, new⟩
  else none

/-- The classification step of `detect`: wicket first, boundary only if no
wicket. -/
def classify (old new : ScoreState) (ts : ℚ) : Option Event :=
  match detectWicket old new ts with
  | some e => some e
  | none => detectBoundary old new ts

/-- The `wickets_diff` computed by `detect`: the plain difference when the
stable score is out of runs-only mode, else `0`. -/
def wicketsDiffOf (stable last : ScoreState) : Int :=
  if 0 ≤ stable.wickets then stable.wickets - last.wickets else 0

/-- The tail of `detect` once a changed stable score is at hand: the
reset-candidate handling for decreases, the silent jump absorption, and the
classification with `last_event_time` / `last_stable_score` updates. -/
def detectCore (s : DetectorState) (stable last : ScoreState) (ts : ℚ) :
    DetectorState × Option Event :=
  if stable.runs - last.runs < 0 then
    if s.resetCandidate = some stable then
      if ts - s.resetCandidateTime > RESET_PERSISTENCE_SECONDS then
        ({ s with lastStableScore := some stable, resetCandidate := none }, none)
      else (s, none)
    else ({ s with resetCandidate := some stable, resetCandidateTime := ts }, none)
  else if MAX_RUNS_PER_BALL < stable.runs - last.runs ∧ wicketsDiffOf stable last ≠ 1 then
    ({ s with resetCandidate := none, lastStableScore := some stable }, none)
  else
    match classify last stable ts with
    | some e =>
      ({ s with resetCandidate := none, lastEventTime := ts,
                lastStableScore := some stable }, some e)
    | none => ({ s with resetCandidate := none, lastStableScore := some stable }, none)

/-- `EventDetector.detect`: one observation through the plausibility check,
the new-ball gate, the cooldown gate, the history append, median smoothing,
the initial fix, and `detectCore`. -/
def detect (s : DetectorState) (score : ScoreState) (ts : ℚ)
    (overs : Option (Int × Int)) : DetectorState × Option Event :=
  if !(isPlausible score) then (s, none)
  else if sameBallBlocked s overs then (pushScore s score, none)
  else if ts - (updateOver s overs).lastEventTime < COOLDOWN_SECONDS then
    (pushScore (updateOver s overs) score, none)
  else
    match getMedianScore (pushScore (updateOver s overs) score),
          (pushScore (updateOver s overs) score).lastStableScore with
    | none, _ => (pushScore (updateOver s overs) score, none)
    | some stable, none =>
      ({ pushScore (updateOver s overs) score with lastStableScore := some stable }, none)
    | some stable, some last =>
      if stable = last then (pushScore (updateOver s overs) score, none)
      else detectCore (pushScore (updateOver s overs) score) stable last ts

/-- An observation fed to the detector: a parsed score, a timestamp in
seconds, and optional overs. -/
structure Obs where
  score : ScoreState
  ts : ℚ
  overs : Option (Int × Int)
deriving DecidableEq, Repr

/-- Drive the detector over a list of observations, collecting the emitted
events in order (as the `process_video` loop does). -/
def runDetector (s : DetectorState) : List Obs → DetectorState × List Event
  | [] => (s, [])
  | o :: rest =>
    let step := detect s o.score o.ts o.overs
    let restRun := runDetector step.1 rest
    (restRun.1, step.2.toList ++ restRun.2)

/-- `n` observations of the same score at consecutive integer seconds. -/
def constObs (sc : ScoreState) : ℚ → Nat → List Obs
  | _, 0 => []
  | t, n + 1 => ⟨sc, t, none⟩ :: constObs sc (t + 1) n

/-- The observation stream of the huge-jump scenario: `224/0` at `t = 0..4`,
`257/1` at `t = 10..12`, `261/1` at `t = 13..15`, no overs. -/
def obsHugeJump : List Obs :=
  constObs ⟨224, 0⟩ 0 5 ++ constObs ⟨257, 1⟩ 10 3 ++ constObs ⟨261, 1⟩ 13 3

/-- The observation stream of the wicket-priority scenario: `200/4` at
`t = 0..4`, then `204/5` at `t = 5..9`, no overs. -/
def obsWicketPriority : List Obs :=
  constObs ⟨200, 4⟩ 0 5 ++ constObs ⟨204, 5⟩ 5 5

example : (runDetector initState obsHugeJump).2
    = [⟨EventKind.WICKET, 12, ⟨224, 0⟩, ⟨257, 1⟩⟩] := by with_unfolding_all decide
example : (runDetector initState obsWicketPriority).2
    = [⟨EventKind.WICKET, 7, ⟨200, 4⟩, ⟨204, 5⟩⟩] := by with_unfolding_all decide

/-! ## ROI clamping (`OCRScoreReader._extract_region`) -/

/-- The clamping `x = min(x, width - w)` (and likewise for `y`) performed by
`_extract_region` before cropping `frame[y:y+h, x:x+w]`. -/
def clampCoord (x w frameDim : Int) : Int :=
  min x (frameDim - w)

/-! ## Clip assembly (`extract_clips`) -/

/-- A single trim request issued to the media tool: start, duration, and the
output file name. -/
structure ClipSpec where
  startSeconds : ℚ
  durationSeconds : ℚ
  fileName : String
deriving DecidableEq, Repr

/-- Python `int()` on a rational: truncation toward zero. -/
def pyInt (q : ℚ) : Int :=
  if q < 0 then -((-q).floor) else q.floor

/-- Python `f"{n:03d}"` for a natural number. -/
def pad3 (n : Nat) : String :=
  if n < 10 then ("00") ++ toString n
  else if n < 100 then ("0") ++ toString n
  else toString n

/-- The `event['type']` string of an event kind. -/
def kindStr : EventKind → String
  | EventKind.FOUR => ("FOUR")
  | EventKind.SIX => ("SIX")
  | EventKind.WICKET => ("WICKET")

/-- The clip file name `f"{video_id}_clip_{i:03d}_{event['type']}_{int(ts)}.mp4"`. -/
def clipName (stem : String) (idx : Nat) (kind : EventKind) (tsInt : Int) : String :=
  stem ++ ("_clip_") ++ pad3 idx ++ ("_") ++ kindStr kind ++ ("_") ++ toString tsInt ++ (".mp4")

/-- The loop of `extract_clips`, carrying the 1-based `enumerate` index:
each event yields a trim at `max(0, ts - before)` of length `before + after`
into its named file. -/
def extractClipsFrom (stem : String) (before after : ℚ) : Nat → List Event → List ClipSpec
  | _, [] => []
  | i, e :: rest =>
    ⟨max 0 (e.timestamp - before), before + after, clipName stem i e.kind (pyInt e.timestamp)⟩ ::
      extractClipsFrom stem before after (i + 1) rest

/-- `extract_clips` from the source, modelling the sequence of trim requests
(the media tool is assumed to succeed, so every request is returned, in
event order). -/
def extract_clips (stem : String) (events : List Event) (before after : ℚ) : List ClipSpec :=
  extractClipsFrom stem before after 1 events

example : extract_clips ("m") [⟨EventKind.FOUR, 83, ⟨0, 0⟩, ⟨4, 0⟩⟩] 12 5
    = [⟨71, 17, ("m_clip_001_FOUR_83.mp4")⟩] := by with_unfolding_all decide

/-! ## Lemmas on the glyph corrections -/

/-- A fold of character replacements over a string is the map of the folded
per-character function. -/
lemma foldl_replaceChar_eq_map (ps : List (Char × Char)) (l : List Char) :
    ps.foldl (fun acc p => replaceChar p.1 p.2 acc) l =
      l.map (fun c => ps.foldl (fun x p => if x = p.1 then p.2 else x) c) := by
  induction ps generalizing l with
  | nil => simp
  | cons p ps ih =>
    simp only [List.foldl_cons]
    rw [ih]
    simp [replaceChar, List.map_map, Function.comp]

/-- `cleanChars` acts character-wise through `corr`. -/
lemma cleanChars_eq_map (l : List Char) : cleanChars l = l.map corr :=
  foldl_replaceChar_eq_map OCR_CORRECTIONS l

/-- A fold of single-character replacements either leaves the character
unchanged or lands on one of the replacement targets. -/
lemma foldl_replace_mem (ps : List (Char × Char)) (c : Char) :
    ps.foldl (fun x p => if x = p.1 then p.2 else x) c = c ∨
      ps.foldl (fun x p => if x = p.1 then p.2 else x) c ∈ ps.map Prod.snd := by
  induction ps generalizing c with
  | nil => left; rfl
  | cons p ps ih =>
    simp only [List.foldl_cons, List.map_cons]
    rcases ih (if c = p.1 then p.2 else c) with h | h
    · rw [h]
      split_ifs with hc
      · right; exact List.mem_cons_self _ _
      · left; rfl
    · right; exact List.mem_cons_of_mem _ h

/-- Every output of `corr` is either the input or a digit replacement, and
digits are fixed by `corr`, so `corr` is idempotent. -/
lemma corr_idem (c : Char) : corr (corr c) = corr c := by
  rcases foldl_replace_mem OCR_CORRECTIONS c with h | h
  · rw [show corr c = c from h]; exact h
  · have htgt : ∀ d ∈ OCR_CORRECTIONS.map Prod.snd, corr d = d := by decide
    exact htgt (corr c) h

/-! ## Step lemmas for the detector -/

@[simp] lemma updateOver_lastEventTime (s : DetectorState) (overs : Option (Int × Int)) :
    (updateOver s overs).lastEventTime = s.lastEventTime := by
  cases overs <;> rfl

@[simp] lemma updateOver_lastStableScore (s : DetectorState) (overs : Option (Int × Int)) :
    (updateOver s overs).lastStableScore = s.lastStableScore := by
  cases overs <;> rfl

@[simp] lemma updateOver_resetCandidate (s : DetectorState) (overs : Option (Int × Int)) :
    (updateOver s overs).resetCandidate = s.resetCandidate := by
  cases overs <;> rfl

@[simp] lemma updateOver_resetCandidateTime (s : DetectorState) (overs : Option (Int × Int)) :
    (updateOver s overs).resetCandidateTime = s.resetCandidateTime := by
  cases overs <;> rfl

@[simp] lemma updateOver_runsHistory (s : DetectorState) (overs : Option (Int × Int)) :
    (updateOver s overs).runsHistory = s.runsHistory := by
  cases overs <;> rfl

@[simp] lemma updateOver_wicketsHistory (s : DetectorState) (overs : Option (Int × Int)) :
    (updateOver s overs).wicketsHistory = s.wicketsHistory := by
  cases overs <;> rfl

@[simp] lemma pushScore_lastEventTime (s : DetectorState) (sc : ScoreState) :
    (pushScore s sc).lastEventTime = s.lastEventTime := rfl

@[simp] lemma pushScore_lastStableScore (s : DetectorState) (sc : ScoreState) :
    (pushScore s sc).lastStableScore = s.lastStableScore := rfl

/-- The median of the pushed state ignores the `last_over` update. -/
lemma getMedianScore_pushScore_updateOver (s : DetectorState) (overs : Option (Int × Int))
    (sc : ScoreState) :
    getMedianScore (pushScore (updateOver s overs) sc) = getMedianScore (pushScore s sc) := by
  cases overs <;> rfl

/-- Any event returned by the classification step carries the transition it
classified and the timestamp it was given. -/
lemma classify_fields {old new : ScoreState} {ts : ℚ} {e : Event}
    (h : classify old new ts = some e) :
    e.scoreBefore = old ∧ e.scoreAfter = new ∧ e.timestamp = ts := by
  unfold classify detectWicket detectBoundary at h
  split at h
  next e' heq =>
    split at heq
    · exact absurd heq (by simp)
    · split at heq
      · cases heq; cases h; exact ⟨rfl, rfl, rfl⟩
      · exact absurd heq (by simp)
  next heq =>
    split at h
    · cases h; exact ⟨rfl, rfl, rfl⟩
    · split at h
      · cases h; exact ⟨rfl, rfl, rfl⟩
      · exact absurd h (by simp)

/-- Classification emits a WICKET exactly on a `+1` wicket transition with
both sides out of runs-only mode; any other emitted kind is not a WICKET. -/
lemma classify_wicket_iff {old new : ScoreState} {ts : ℚ} {e : Event}
    (h : classify old new ts = some e) :
    e.kind = EventKind.WICKET ↔
      0 ≤ old.wickets ∧ 0 ≤ new.wickets ∧ new.wickets - old.wickets = 1 := by
  unfold classify detectWicket detectBoundary at h
  split at h
  next e' heq =>
    split at heq
    next hneg =>
      exact absurd heq (by simp)
    next hneg =>
      split at heq
      next hdiff =>
        cases heq; cases h
        push_neg at hneg
        exact iff_of_true rfl ⟨hneg.1, hneg.2, hdiff⟩
      · exact absurd heq (by simp)
  next heq =>
    split at h
    · cases h
      refine iff_of_false (by simp) ?_
      rintro ⟨h1, h2, h3⟩
      rw [if_neg (by omega), if_pos h3] at heq
      exact absurd heq (by simp)
    · split at h
      · cases h
        refine iff_of_false (by simp) ?_
        rintro ⟨h1, h2, h3⟩
        rw [if_neg (by omega), if_pos h3] at heq
        exact absurd heq (by simp)
      · exact absurd h (by simp)

/-- On a `+1` wicket transition with both sides out of runs-only mode the
classifier returns the WICKET event, whatever the runs difference is. -/
lemma classify_wicket {old new : ScoreState} (ts : ℚ)
    (h1 : 0 ≤ old.wickets) (h2 : 0 ≤ new.wickets)
    (h3 : new.wickets - old.wickets = 1) :
    classify old new ts = some ⟨EventKind.WICKET, ts, old, new⟩ := by
  unfold classify detectWicket
  rw [if_neg (by omega), if_pos h3]


/-- The facts carried by any emission of `detect`: the event is classified
from the stored stable score to the new one, timestamped at the observation,
past the cooldown gate, with a non-negative runs difference, and the state
records the event time and the new baseline. -/
lemma detect_emit {s : DetectorState} {score : ScoreState} {ts : ℚ}
    {overs : Option (Int × Int)} {s' : DetectorState} {e : Event}
    (h : detect s score ts overs = (s', some e)) :
    e.timestamp = ts ∧ s'.lastEventTime = ts ∧
    COOLDOWN_SECONDS ≤ ts - s.lastEventTime ∧
    ∃ last stable, s.lastStableScore = some last ∧ s'.lastStableScore = some stable ∧
      0 ≤ stable.runs - last.runs ∧ classify last stable ts = some e := by
  unfold detect at h
  split at h
  · simp at h
  split at h
  · simp at h
  split at h
  · simp at h
  next hcool =>
  split at h
  · simp at h
  · simp at h
  next stable last hmed hlast =>
    split at h
    · simp at h
    next hne =>
      unfold detectCore at h
      split at h
      next hneg =>
        split at h
        · split at h
          · simp at h
          · simp at h
        · simp at h
      next hrd =>
        split at h
        · simp at h
        next hjump =>
          split at h
          next e' hcls =>
            rw [Prod.mk.injEq] at h
            obtain ⟨hs', he⟩ := h
            cases he
            obtain ⟨hb, ha, ht⟩ := classify_fields hcls
            simp only [pushScore_lastStableScore, updateOver_lastStableScore] at hlast
            simp only [updateOver_lastEventTime] at hcool
            refine ⟨ht, ?_, by linarith [not_lt.mp hcool], last, stable, hlast, ?_, by omega, hcls⟩
            · rw [← hs']
            · rw [← hs']
          next hcls => simp at h

/-- `detect` leaves `last_event_time` unchanged whenever it emits nothing. -/
lemma detect_none_lastEventTime {s : DetectorState} {score : ScoreState} {ts : ℚ}
    {overs : Option (Int × Int)} {s' : DetectorState}
    (h : detect s score ts overs = (s', none)) :
    s'.lastEventTime = s.lastEventTime := by
  unfold detect at h
  split at h
  · cases h; rfl
  split at h
  · cases h; rfl
  split at h
  · rw [Prod.mk.injEq] at h; rw [← h.1]; simp
  split at h
  · rw [Prod.mk.injEq] at h; rw [← h.1]; simp
  · rw [Prod.mk.injEq] at h; rw [← h.1]; simp
  next stable last hmed hlast =>
    split at h
    · rw [Prod.mk.injEq] at h; rw [← h.1]; simp
    · unfold detectCore at h
      split at h
      · split at h
        · split at h
          · rw [Prod.mk.injEq] at h; rw [← h.1]; simp
          · rw [Prod.mk.injEq] at h; rw [← h.1]; simp
        · rw [Prod.mk.injEq] at h; rw [← h.1]; simp
      · split at h
        · rw [Prod.mk.injEq] at h; rw [← h.1]; simp
        · split at h
          · simp at h
          · rw [Prod.mk.injEq] at h; rw [← h.1]; simp

@[simp] lemma pushScore_resetCandidate (s : DetectorState) (sc : ScoreState) :
    (pushScore s sc).resetCandidate = s.resetCandidate := rfl

@[simp] lemma pushScore_resetCandidateTime (s : DetectorState) (sc : ScoreState) :
    (pushScore s sc).resetCandidateTime = s.resetCandidateTime := rfl

/-- Every event in the output of a run was emitted by some single `detect`
step. -/
lemma runDetector_mem_emitted (s : DetectorState) (obs : List Obs) :
    ∀ e ∈ (runDetector s obs).2,
      ∃ s0 sc ts ov s1, detect s0 sc ts ov = (s1, some e) := by
  induction obs generalizing s with
  | nil => intro e he; simp [runDetector] at he
  | cons o rest ih =>
    intro e he
    simp only [runDetector] at he
    rcases hd : detect s o.score o.ts o.overs with ⟨s1, ev⟩
    rw [hd] at he
    simp only [List.mem_append] at he
    rcases he with he | he
    · cases ev with
      | none => simp at he
      | some e0 =>
        simp only [Option.toList_some, List.mem_singleton] at he
        subst he
        exact ⟨s, o.score, o.ts, o.overs, s1, hd⟩
    · exact ih s1 e he

/-- A single emitted WICKET satisfies the wicket invariant. -/
lemma detect_wicket_step {s : DetectorState} {score : ScoreState} {ts : ℚ}
    {overs : Option (Int × Int)} {s' : DetectorState} {e : Event}
    (h : detect s score ts overs = (s', some e)) (hk : e.kind = EventKind.WICKET) :
    e.scoreAfter.wickets = e.scoreBefore.wickets + 1 ∧
    0 ≤ e.scoreBefore.wickets ∧ 0 ≤ e.scoreAfter.wickets := by
  obtain ⟨-, -, -, last, stable, -, -, -, hcls⟩ := detect_emit h
  obtain ⟨hb, ha, -⟩ := classify_fields hcls
  obtain ⟨h1, h2, h3⟩ := (classify_wicket_iff hcls).mp hk
  subst hb; subst ha
  exact ⟨by omega, h1, h2⟩

/-- Every event of a run obeys the cooldown relative to the starting state,
and consecutive events are spaced by at least the cooldown. -/
lemma runDetector_spacing (obs : List Obs) : ∀ s : DetectorState,
    (∀ e ∈ (runDetector s obs).2,
      s.lastEventTime + COOLDOWN_SECONDS ≤ e.timestamp) ∧
    List.Chain' (fun a b => a.timestamp + COOLDOWN_SECONDS ≤ b.timestamp)
      (runDetector s obs).2 := by
  have hC : COOLDOWN_SECONDS = 10 := rfl
  induction obs with
  | nil =>
    intro s
    refine ⟨fun e he => ?_, by simp [runDetector]⟩
    simp [runDetector] at he
  | cons o rest ih =>
    intro s
    rcases hd : detect s o.score o.ts o.overs with ⟨s1, ev⟩
    have hrun : (runDetector s (o :: rest)).2 = ev.toList ++ (runDetector s1 rest).2 := by
      simp only [runDetector, hd]
    cases ev with
    | none =>
      have hle : s1.lastEventTime = s.lastEventTime := detect_none_lastEventTime hd
      obtain ⟨h1, h2⟩ := ih s1
      rw [hrun]
      simp only [Option.toList_none, List.nil_append]
      exact ⟨fun e he => hle ▸ h1 e he, h2⟩
    | some e0 =>
      obtain ⟨ht0, hlet, hcool, -⟩ := detect_emit hd
      obtain ⟨h1, h2⟩ := ih s1
      rw [hrun]
      simp only [Option.toList_some, List.singleton_append]
      constructor
      · intro e he
        rcases List.mem_cons.mp he with he | he
        · subst he; linarith
        · have h3 := h1 e he
          rw [hlet] at h3
          rw [hC] at *
          linarith
      · refine List.chain'_cons'.mpr ⟨fun b hb => ?_, h2⟩
        have h3 := h1 b (List.mem_of_mem_head? hb)
        rw [hlet] at h3
        rw [ht0]
        linarith

/-- C3: for every WICKET emitted by the detector, the wickets after equal
the wickets before plus one, and both wicket counts are non-negative (so a
WICKET is never emitted from or into runs-only mode). -/
theorem wicket_event_invariant (s : DetectorState) (obs : List Obs) (e : Event)
    (hmem : e ∈ (runDetector s obs).2) (hk : e.kind = EventKind.WICKET) :
    e.scoreAfter.wickets = e.scoreBefore.wickets + 1 ∧
    0 ≤ e.scoreBefore.wickets ∧ 0 ≤ e.scoreAfter.wickets := by
  obtain ⟨s0, sc, ts, ov, s1, hd⟩ := runDetector_mem_emitted s obs e hmem
  exact detect_wicket_step hd hk

/-- C4: over any observation sequence, two consecutive emitted events are
separated by at least `COOLDOWN_SECONDS = 10` seconds of observation
timestamp. -/
theorem events_cooldown_spaced (obs : List Obs) :
    List.Chain' (fun e1 e2 => COOLDOWN_SECONDS ≤ e2.timestamp - e1.timestamp)
      (runDetector initState obs).2 := by
  have h := (runDetector_spacing obs initState).2
  exact List.Chain'.imp (fun a b hab => by linarith) h

/-- The single event emitted by the wicket-priority scenario. -/
def wicketPriorityEvent : Event := ⟨EventKind.WICKET, 7, ⟨200, 4⟩, ⟨204, 5⟩⟩

/-- Witness for C3: the wicket-priority scenario emits a WICKET, and the
invariant holds for it. -/
theorem wicket_event_invariant_witness :
    (wicketPriorityEvent ∈ (runDetector initState obsWicketPriority).2 ∧
      wicketPriorityEvent.kind = EventKind.WICKET) ∧
    (wicketPriorityEvent.scoreAfter.wickets = wicketPriorityEvent.scoreBefore.wickets + 1 ∧
      0 ≤ wicketPriorityEvent.scoreBefore.wickets ∧
      0 ≤ wicketPriorityEvent.scoreAfter.wickets) :=
  ⟨⟨by with_unfolding_all decide, rfl⟩,
    wicket_event_invariant initState obsWicketPriority wicketPriorityEvent
      (by with_unfolding_all decide) rfl⟩

/-- A step that emits an event on a `+1` wicket transition with both sides
out of runs-only mode emits a WICKET, never a FOUR or SIX. -/
lemma detect_wicket_kind {s : DetectorState} {score : ScoreState} {ts : ℚ}
    {overs : Option (Int × Int)} {s' : DetectorState} {e : Event}
    (h : detect s score ts overs = (s', some e))
    (h1 : 0 ≤ e.scoreBefore.wickets) (h2 : 0 ≤ e.scoreAfter.wickets)
    (h3 : e.scoreAfter.wickets - e.scoreBefore.wickets = 1) :
    e.kind = EventKind.WICKET := by
  obtain ⟨-, -, -, last, stable, -, -, -, hcls⟩ := detect_emit h
  obtain ⟨hb, ha, -⟩ := classify_fields hcls
  refine (classify_wicket_iff hcls).mpr ?_
  subst hb; subst ha
  exact ⟨h1, h2, h3⟩

/-- The observation stream with a wicket on a (spurious) runs decrease:
`200/4` at `t = 0..4`, then `190/5` at `t = 5..9`, no overs. -/
def obsWicketDecrease : List Obs :=
  constObs ⟨200, 4⟩ 0 5 ++ constObs ⟨190, 5⟩ 5 5

/-- C2 (counterexample): on the eighth observation of `obsWicketDecrease`
the smoothed stable score changes from `200/4` to `190/5` — both wicket
counts non-negative and `wickets_diff = 1` — yet the whole run emits no
event at all, because the runs decrease is routed to the reset-candidate
logic before classification. -/
theorem wicket_regardless_of_runs_cex :
    (runDetector initState obsWicketDecrease).2 = [] ∧
    (runDetector initState (obsWicketDecrease.take 7)).1.lastStableScore = some ⟨200, 4⟩ ∧
    getMedianScore
        (pushScore (runDetector initState (obsWicketDecrease.take 7)).1 ⟨190, 5⟩)
      = some ⟨190, 5⟩ := by
  with_unfolding_all decide

/-- C2 (amended): whenever the classification step is reached on a
transition with both wicket counts non-negative and `wickets_diff = 1`, a
WICKET is produced regardless of `runs_diff`; any event the detector emits
over such a transition is a WICKET, never a FOUR or SIX; and the
wicket-priority scenario emits exactly one WICKET with
`score_after = 204/5`.  (A transition whose runs decrease is diverted to
the reset-candidate logic and emits nothing, so the claim holds only once
the classification step is reached.) -/
theorem wicket_priority_over_runs :
    (∀ (old new : ScoreState) (ts : ℚ), 0 ≤ old.wickets → 0 ≤ new.wickets →
      new.wickets - old.wickets = 1 →
      classify old new ts = some ⟨EventKind.WICKET, ts, old, new⟩) ∧
    (∀ (s : DetectorState) (score : ScoreState) (ts : ℚ)
      (overs : Option (Int × Int)) (s' : DetectorState) (e : Event),
      detect s score ts overs = (s', some e) →
      0 ≤ e.scoreBefore.wickets → 0 ≤ e.scoreAfter.wickets →
      e.scoreAfter.wickets - e.scoreBefore.wickets = 1 →
      e.kind = EventKind.WICKET) ∧
    (runDetector initState obsWicketPriority).2 = [wicketPriorityEvent] := by
  refine ⟨fun old new ts h1 h2 h3 => classify_wicket ts h1 h2 h3,
    fun s score ts overs s' e h h1 h2 h3 => detect_wicket_kind h h1 h2 h3,
    by with_unfolding_all decide⟩

/-- Witness for C2: the amended theorem applied at the `200/4 → 204/5`
transition. -/
theorem wicket_priority_over_runs_witness :
    (0 ≤ (⟨200, 4⟩ : ScoreState).wickets ∧ 0 ≤ (⟨204, 5⟩ : ScoreState).wickets ∧
      (⟨204, 5⟩ : ScoreState).wickets - (⟨200, 4⟩ : ScoreState).wickets = 1) ∧
    classify ⟨200, 4⟩ ⟨204, 5⟩ 7 = some ⟨EventKind.WICKET, 7, ⟨200, 4⟩, ⟨204, 5⟩⟩ :=
  ⟨⟨by decide, by decide, by decide⟩,
    wicket_priority_over_runs.1 ⟨200, 4⟩ ⟨204, 5⟩ 7 (by decide) (by decide) (by decide)⟩

/-- The single event emitted by the huge-jump scenario. -/
def hugeJumpEvent : Event := ⟨EventKind.WICKET, 12, ⟨224, 0⟩, ⟨257, 1⟩⟩

/-- C1 (counterexample): the huge-jump scenario does not absorb the
`224/0 → 257/1` jump silently: because `wickets_diff = 1`, the jump guard
`runs_diff > MAX_RUNS_PER_BALL ∧ wickets_diff ≠ 1` does not fire and the
wicket-priority classifier emits a WICKET at `t = 12`; no FOUR is ever
emitted (the `261/1` frames fall inside the cooldown window). -/
theorem huge_jump_claim_cex :
    (runDetector initState obsHugeJump).2 = [hugeJumpEvent] ∧
    (∀ e ∈ (runDetector initState obsHugeJump).2, e.kind ≠ EventKind.FOUR) := by
  with_unfolding_all decide

/-- C1 (amended): the huge-jump scenario yields exactly one event, a WICKET
at `t = 12` with `score_before = 224/0` and `score_after = 257/1`; the jump
becomes the new baseline through the wicket emission, and the later
`257 → 261` change emits nothing because it falls inside the cooldown, so
the baseline stays `257/1`. -/
theorem huge_jump_emits_wicket :
    (runDetector initState obsHugeJump).2 = [hugeJumpEvent] ∧
    (runDetector initState obsHugeJump).1.lastStableScore = some ⟨257, 1⟩ := by
  with_unfolding_all decide

/-- Once the stable score has strictly fewer runs than the baseline, the
core emits nothing. -/
lemma detectCore_decrease_none {s : DetectorState} {stable last : ScoreState} {ts : ℚ}
    (h : stable.runs - last.runs < 0) :
    (detectCore s stable last ts).2 = none := by
  unfold detectCore
  rw [if_pos h]
  split
  · split <;> rfl
  · rfl

/-- A runs decrease of the smoothed stable score relative to the baseline
never emits an event. -/
lemma detect_runs_decrease_none (s : DetectorState) (score : ScoreState) (ts : ℚ)
    (overs : Option (Int × Int)) (last stable : ScoreState)
    (hlast : s.lastStableScore = some last)
    (hmed : getMedianScore (pushScore s score) = some stable)
    (hlt : stable.runs < last.runs) :
    (detect s score ts overs).2 = none := by
  unfold detect
  split
  · rfl
  split
  · rfl
  split
  · rfl
  split
  · rfl
  · rfl
  next stable' last' hmed' hlast' =>
    split
    · rfl
    next hne =>
      rw [getMedianScore_pushScore_updateOver, hmed] at hmed'
      cases hmed'
      simp only [pushScore_lastStableScore, updateOver_lastStableScore, hlast] at hlast'
      cases hlast'
      exact detectCore_decrease_none (by omega)

/-- The baseline is replaced by a score with strictly fewer runs only by the
reset acceptance: the lower score must already be the reset candidate, more
than `RESET_PERSISTENCE_SECONDS` must have elapsed since it became the
candidate, and nothing is emitted. -/
lemma detect_baseline_decrease (s : DetectorState) (score : ScoreState) (ts : ℚ)
    (overs : Option (Int × Int)) (s' : DetectorState) (ev : Option Event)
    (last stable : ScoreState)
    (hlast : s.lastStableScore = some last)
    (hd : detect s score ts overs = (s', ev))
    (hs' : s'.lastStableScore = some stable)
    (hlt : stable.runs < last.runs) :
    s.resetCandidate = some stable ∧
    ts - s.resetCandidateTime > RESET_PERSISTENCE_SECONDS ∧ ev = none := by
  unfold detect at hd
  split at hd
  · rw [Prod.mk.injEq] at hd
    rw [← hd.1, hlast] at hs'
    cases hs'
    omega
  split at hd
  · rw [Prod.mk.injEq] at hd
    rw [← hd.1] at hs'
    simp only [pushScore_lastStableScore, hlast] at hs'
    cases hs'
    omega
  split at hd
  · rw [Prod.mk.injEq] at hd
    rw [← hd.1] at hs'
    simp only [pushScore_lastStableScore, updateOver_lastStableScore, hlast] at hs'
    cases hs'
    omega
  split at hd
  · rw [Prod.mk.injEq] at hd
    rw [← hd.1] at hs'
    simp only [pushScore_lastStableScore, updateOver_lastStableScore, hlast] at hs'
    cases hs'
    omega
  next stable' hmed' hnolast =>
    simp only [pushScore_lastStableScore, updateOver_lastStableScore, hlast] at hnolast
    cases hnolast
  next stable' last' hmed' hlast' =>
    simp only [pushScore_lastStableScore, updateOver_lastStableScore, hlast] at hlast'
    cases hlast'
    split at hd
    · rw [Prod.mk.injEq] at hd
      rw [← hd.1] at hs'
      simp only [pushScore_lastStableScore, updateOver_lastStableScore, hlast] at hs'
      cases hs'
      omega
    next hne =>
      unfold detectCore at hd
      split at hd
      next hneg =>
        split at hd
        next hcand =>
          split at hd
          next helapsed =>
            rw [Prod.mk.injEq] at hd
            rw [← hd.1] at hs'
            simp only at hs'
            cases hs'
            simp only [pushScore_resetCandidate, updateOver_resetCandidate] at hcand
            simp only [pushScore_resetCandidateTime, updateOver_resetCandidateTime] at helapsed
            exact ⟨hcand, helapsed, hd.2.symm⟩
          next helapsed =>
            rw [Prod.mk.injEq] at hd
            rw [← hd.1] at hs'
            simp only [pushScore_lastStableScore, updateOver_lastStableScore, hlast] at hs'
            cases hs'
            omega
        next hcand =>
          rw [Prod.mk.injEq] at hd
          rw [← hd.1] at hs'
          simp only [pushScore_lastStableScore, updateOver_lastStableScore, hlast] at hs'
          cases hs'
          omega
      next hneg =>
        split at hd
        · rw [Prod.mk.injEq] at hd
          rw [← hd.1] at hs'
          simp only at hs'
          cases hs'
          omega
        · split at hd
          · rw [Prod.mk.injEq] at hd
            rw [← hd.1] at hs'
            simp only at hs'
            cases hs'
            omega
          · rw [Prod.mk.injEq] at hd
            rw [← hd.1] at hs'
            simp only at hs'
            cases hs'
            omega

/-- The observation stream of the innings-reset scenario: `200/5` at
`t = 0..4`, then `0/0` continuously at `t = 10..80`. -/
def obsInningsReset : List Obs :=
  constObs ⟨200, 5⟩ 0 5 ++ constObs ⟨0, 0⟩ 10 71

/-- The innings-reset scenario followed by a stable `4/0` at `t = 81..85`. -/
def obsInningsResetFull : List Obs :=
  obsInningsReset ++ constObs ⟨4, 0⟩ 81 5

/-- C5: a stable score with strictly fewer runs than the baseline emits no
event; the baseline is replaced by the lower score only once that same
score has been the reset candidate for strictly more than
`RESET_PERSISTENCE_SECONDS = 60` seconds; and concretely, a `200/5`
baseline fed `0/0` from `t = 10` for 70 seconds produces no events and ends
with baseline `0/0`, after which a stable `4/0` produces exactly one FOUR. -/
theorem innings_reset_behaviour :
    (∀ (s : DetectorState) (score : ScoreState) (ts : ℚ)
      (overs : Option (Int × Int)) (last stable : ScoreState),
      s.lastStableScore = some last →
      getMedianScore (pushScore s score) = some stable →
      stable.runs < last.runs →
      (detect s score ts overs).2 = none) ∧
    (∀ (s : DetectorState) (score : ScoreState) (ts : ℚ)
      (overs : Option (Int × Int)) (s' : DetectorState) (ev : Option Event)
      (last stable : ScoreState),
      s.lastStableScore = some last →
      detect s score ts overs = (s', ev) →
      s'.lastStableScore = some stable →
      stable.runs < last.runs →
      s.resetCandidate = some stable ∧
      ts - s.resetCandidateTime > RESET_PERSISTENCE_SECONDS ∧ ev = none) ∧
    ((runDetector initState obsInningsReset).2 = [] ∧
      (runDetector initState obsInningsReset).1.lastStableScore = some ⟨0, 0⟩ ∧
      (runDetector initState obsInningsResetFull).2
        = [⟨EventKind.FOUR, 83, ⟨0, 0⟩, ⟨4, 0⟩⟩]) := by
  refine ⟨detect_runs_decrease_none, detect_baseline_decrease, ?_⟩
  with_unfolding_all decide

/-- Witness for C5: the no-event part applied at the eighth observation of
the innings-reset scenario, where the stable score first drops to `0/0`. -/
theorem innings_reset_behaviour_witness :
    ((runDetector initState (obsInningsReset.take 7)).1.lastStableScore = some ⟨200, 5⟩ ∧
      getMedianScore
          (pushScore (runDetector initState (obsInningsReset.take 7)).1 ⟨0, 0⟩)
        = some ⟨0, 0⟩ ∧
      (⟨0, 0⟩ : ScoreState).runs < (⟨200, 5⟩ : ScoreState).runs) ∧
    (detect (runDetector initState (obsInningsReset.take 7)).1 ⟨0, 0⟩ 12 none).2 = none :=
  ⟨⟨by with_unfolding_all decide, by with_unfolding_all decide, by decide⟩,
    innings_reset_behaviour.1 (runDetector initState (obsInningsReset.take 7)).1
      ⟨0, 0⟩ 12 none ⟨200, 5⟩ ⟨0, 0⟩
      (by with_unfolding_all decide) (by with_unfolding_all decide) (by decide)⟩

/-- C6: the last-digit heuristic applies only with `prev_wickets` known, at
least two digits in the text, and a last digit equal to `prev_wickets` or
`prev_wickets + 1`; `parse_score("1453", 3) = 145/3` while
`parse_score("1453", None) = None` (the four-digit runs-only reading is
rejected as exceeding three digits / 999). -/
theorem parse_score_last_digit_heuristic :
    (∀ (t : List Char) (prev : Option Int) (r : ScoreState), strat3 t prev = some r →
      2 ≤ (t.filter Char.isDigit).length ∧
      (t.filter Char.isDigit).getLast?.map (fun c => (digitVal c : Int)) = some r.wickets ∧
      (prev = some r.wickets ∨ prev = some (r.wickets - 1))) ∧
    parse_score ("1453") (some 3) = some ⟨145, 3⟩ ∧
    parse_score ("1453") none = none := by
  refine ⟨?_, by decide, by decide⟩
  intro t prev r h
  rcases prev with _ | pw
  · simp [strat3] at h
  · simp only [strat3] at h
    split at h
    next hlen =>
      split at h
      next => exact absurd h (by simp)
      next c hc =>
        split at h
        next hcond =>
          split at h
          next hruns =>
            split at h
            next h999 =>
              cases h
              refine ⟨hlen, by rw [hc]; rfl, ?_⟩
              rcases hcond.2 with he | he
              · exact Or.inl (congrArg some he.symm)
              · refine Or.inr (congrArg some ?_)
                show pw = (digitVal c : Int) - 1
                omega
            next => exact absurd h (by simp)
          next => exact absurd h (by simp)
        next => exact absurd h (by simp)
    next => exact absurd h (by simp)

/-- Witness for C6: the gating facts at the concrete heuristic parse of
`"1453"` with `prev_wickets = 3`. -/
theorem parse_score_last_digit_heuristic_witness :
    strat3 (String.data ("1453")) (some 3) = some ⟨145, 3⟩ ∧
    (2 ≤ ((String.data ("1453")).filter Char.isDigit).length ∧
      ((String.data ("1453")).filter Char.isDigit).getLast?.map
          (fun c => (digitVal c : Int))
        = some ((⟨145, 3⟩ : ScoreState).wickets) ∧
      (some (3 : Int) = some ((⟨145, 3⟩ : ScoreState).wickets) ∨
        some (3 : Int) = some ((⟨145, 3⟩ : ScoreState).wickets - 1))) :=
  ⟨by decide,
    parse_score_last_digit_heuristic.1 (String.data ("1453")) (some 3) ⟨145, 3⟩ (by decide)⟩

/-- C7 (counterexample): with a configured rectangle wider than the frame
(`x = 216`, `w = 170`, frame width `100`), the clamping
`x := min(x, width - w)` yields `-70`, which violates `0 ≤ x'`: the crop is
not kept inside the frame when the frame is smaller than the rectangle. -/
theorem roi_clamp_claim_cex :
    clampCoord 216 170 100 = -70 ∧ ¬ (0 ≤ clampCoord 216 170 100) := by decide

/-- C7 (amended): for non-negative configured coordinates the clamp keeps
the rectangle's far edge inside the frame (`x' + w ≤ width`,
`y' + h ≤ height`) unconditionally, and keeps the origin non-negative
provided the rectangle fits the frame (`w ≤ width`, `h ≤ height`); when the
frame is smaller than the rectangle the clamped origin can be negative. -/
theorem roi_clamp_amended (x y w h width height : Int) (hx : 0 ≤ x) (hy : 0 ≤ y) :
    clampCoord x w width + w ≤ width ∧ clampCoord y h height + h ≤ height ∧
    (w ≤ width → 0 ≤ clampCoord x w width) ∧
    (h ≤ height → 0 ≤ clampCoord y h height) := by
  unfold clampCoord
  refine ⟨?_, ?_, fun hw => ?_, fun hh => ?_⟩
  · have := min_le_right x (width - w); omega
  · have := min_le_right y (height - h); omega
  · exact le_min hx (by omega)
  · exact le_min hy (by omega)

/-- Witness for C7: the amended clamp bounds at the default 1080p ROI on a
1920x1080 frame. -/
theorem roi_clamp_amended_witness :
    (0 ≤ (216 : Int) ∧ 0 ≤ (940 : Int)) ∧
    (clampCoord 216 170 1920 + 170 ≤ 1920 ∧ clampCoord 940 70 1080 + 70 ≤ 1080 ∧
      ((170 : Int) ≤ 1920 → 0 ≤ clampCoord 216 170 1920) ∧
      ((70 : Int) ≤ 1080 → 0 ≤ clampCoord 940 70 1080)) :=
  ⟨⟨by decide, by decide⟩,
    roi_clamp_amended 216 940 170 70 1920 1080 (by decide) (by decide)⟩

/-- One clip request per event, whatever the starting index. -/
lemma extractClipsFrom_length (stem : String) (before after : ℚ) :
    ∀ (k : Nat) (events : List Event),
      (extractClipsFrom stem before after k events).length = events.length := by
  intro k events
  induction events generalizing k with
  | nil => rfl
  | cons e rest ih => simp [extractClipsFrom, ih]

/-- The clip request at position `i` is built from the event at position `i`
with the running index `k + i`. -/
lemma extractClipsFrom_getElem (stem : String) (before after : ℚ) :
    ∀ (events : List Event) (k i : Nat) (e : Event), events[i]? = some e →
      (extractClipsFrom stem before after k events)[i]? =
        some ⟨max 0 (e.timestamp - before), before + after,
              clipName stem (k + i) e.kind (pyInt e.timestamp)⟩ := by
  intro events
  induction events with
  | nil => intro k i e h; simp at h
  | cons a rest ih =>
    intro k i e h
    cases i with
    | zero =>
      simp only [List.getElem?_cons_zero, Option.some.injEq] at h
      subst h
      simp [extractClipsFrom]
    | succ n =>
      simp only [List.getElem?_cons_succ] at h
      have h2 := ih (k + 1) n e h
      simp only [extractClipsFrom, List.getElem?_cons_succ]
      rw [h2, Nat.add_assoc, Nat.add_comm 1 n]

/-- Python `int()` agrees with the floor on non-negative rationals. -/
lemma pyInt_eq_floor {q : ℚ} (h : 0 ≤ q) : pyInt q = Rat.floor q := by
  unfold pyInt
  rw [if_neg (not_lt.mpr h)]

/-- C8: for every event list and padding, the assembler requests for the
`i`-th event (1-based) a trim starting at `max(0, ts - before)` of duration
`before + after` into the file
`{stem}_clip_{i:03d}_{KIND}_{ts_int}.mp4` with `ts_int` the floor of the
(non-negative) event timestamp, and the requests preserve event order
one-for-one. -/
theorem extract_clips_spec (stem : String) (events : List Event) (before after : ℚ)
    (hts : ∀ e ∈ events, 0 ≤ e.timestamp) :
    (extract_clips stem events before after).length = events.length ∧
    ∀ (i : Nat) (e : Event), events[i]? = some e →
      (extract_clips stem events before after)[i]? =
        some ⟨max 0 (e.timestamp - before), before + after,
              clipName stem (i + 1) e.kind (Rat.floor e.timestamp)⟩ := by
  refine ⟨extractClipsFrom_length stem before after 1 events, ?_⟩
  intro i e h
  have h2 := extractClipsFrom_getElem stem before after events 1 i e h
  rw [pyInt_eq_floor (hts e (List.getElem?_mem h))] at h2
  unfold extract_clips
  rw [h2, Nat.add_comm 1 i]

/-- Witness for C8: the single-event request of the innings-reset FOUR with
the default 12/5 padding. -/
theorem extract_clips_spec_witness :
    (∀ e ∈ [(⟨EventKind.FOUR, 83, ⟨0, 0⟩, ⟨4, 0⟩⟩ : Event)], 0 ≤ e.timestamp) ∧
    (extract_clips ("match") [⟨EventKind.FOUR, 83, ⟨0, 0⟩, ⟨4, 0⟩⟩] 12 5)[0]? =
      some ⟨71, 17, ("match_clip_001_FOUR_83.mp4")⟩ := by
  refine ⟨by with_unfolding_all decide, ?_⟩
  have h := (extract_clips_spec ("match") [⟨EventKind.FOUR, 83, ⟨0, 0⟩, ⟨4, 0⟩⟩] 12 5
      (by with_unfolding_all decide)).2 0 ⟨EventKind.FOUR, 83, ⟨0, 0⟩, ⟨4, 0⟩⟩
      (by with_unfolding_all decide)
  rw [h]
  with_unfolding_all decide

/-- C9: `clean_ocr_text` is idempotent: every replacement target is a digit
and no digit is a replacement key, so a second pass changes nothing. -/
theorem clean_ocr_text_idempotent (s : String) :
    clean_ocr_text (clean_ocr_text s) = clean_ocr_text s := by
  have key : ∀ l : List Char, cleanChars (cleanChars l) = cleanChars l := by
    intro l
    have h1 := cleanChars_eq_map l
    have h2 := cleanChars_eq_map (l.map corr)
    rw [h1, h2, List.map_map]
    refine List.map_congr_left fun a _ => ?_
    rw [Function.comp_apply]
    exact corr_idem a
  simp only [clean_ocr_text]
  exact congrArg String.mk (key s.data)

/-- C10: `parse_score` returns `None` on empty or whitespace-only input,
for every `prev_wickets` argument (the guard strips the text and bails
out). -/
theorem parse_score_blank_none (s : String) (prev : Option Int)
    (h : ∀ c ∈ s.data, isSpaceChar c = true) :
    parse_score s prev = none := by
  have hdrop : s.data.dropWhile isSpaceChar = [] :=
    List.dropWhile_eq_nil_iff.mpr h
  have hstrip : pyStrip s.data = [] := by
    unfold pyStrip
    rw [hdrop]
    rfl
  unfold parse_score
  simp [hstrip]

/-- Witness for C10: blank input with a known previous wicket count. -/
theorem parse_score_blank_none_witness :
    (∀ c ∈ (String.data ("  ")), isSpaceChar c = true) ∧
    parse_score ("  ") (some 3) = none :=
  ⟨by decide, parse_score_blank_none ("  ") (some 3) (by decide)⟩
